import Mathlib

/-!
Verification of the stompy constrained-Delaunay-triangulation core and
advancing-front mesher (src/stompy/grid/exact_delaunay.py,
src/stompy/grid/front.py) against its natural-language specification.

Conventions of the embedding:
* machine floats are modelled by exact rationals (the source relies on the
  robust_predicates library precisely so that all geometric decisions are
  exact sign computations);
* numpy arrays become lists, node/edge/cell ids are natural numbers, the
  cell slots of an edge are integers so that the negative sentinels of the
  source (INF_CELL and friends) are representable;
* Python exceptions become Except / Option results, and for operations that
  mutate state before raising, a pair of (final state, optional exception).

The file is organised as definitions first, then theorems.
-/

namespace Stompy

/-- Sign of a number, in {-1, 0, 1}; the return convention of the exact
predicates of robust_predicates.  Polymorphic over the coordinate ring so
that theorems can run over ℚ (the model of the source's floats) while
concrete witnesses evaluate over ℤ. -/
def qsign {α : Type} [LinearOrderedCommRing α] (q : α) : Int :=
  if 0 < q then 1 else if q < 0 then -1 else 0

/-- Modelled from the spec: robust_predicates.orientation (the library is an
external collaborator, spec section 4.1): sign of the doubled signed area of
triangle a,b,c — +1 if c is strictly left of a→b, -1 if strictly right,
0 if collinear. -/
def orientation {α : Type} [LinearOrderedCommRing α] (a b c : α × α) : Int :=
  qsign ((b.1 - a.1) * (c.2 - a.2) - (b.2 - a.2) * (c.1 - a.1))

/-- Modelled from the spec: robust_predicates.incircle (spec section 4.1):
with a,b,c CCW, +1 if d is strictly inside the circumcircle of a,b,c,
-1 if strictly outside, 0 if cocircular.  Standard lifted determinant. -/
def incircle {α : Type} [LinearOrderedCommRing α] (a b c d : α × α) : Int :=
  let r : α × α → α × α × α := fun p =>
    (p.1 - d.1, p.2 - d.2, (p.1 - d.1) ^ 2 + (p.2 - d.2) ^ 2)
  let x := r a
  let y := r b
  let z := r c
  qsign (x.1 * (y.2.1 * z.2.2 - y.2.2 * z.2.1)
       - x.2.1 * (y.1 * z.2.2 - y.2.2 * z.1)
       + x.2.2 * (y.1 * z.2.1 - y.2.1 * z.1))

/-! ## C6 definitions: the length-penalty term of front.one_point_cost -/

/-- Squared Euclidean distance between two points, the value
`((u - v)**2).sum()` of the source. -/
def dist2 (u v : ℚ × ℚ) : ℚ := (u.1 - v.1) ^ 2 + (u.2 - v.2) ^ 2

/-- Minimum of a nonempty list of rationals (`ndarray.min()`); 0 on the empty
list, which the source never passes. -/
def qmin : List ℚ → ℚ
  | [] => 0
  | x :: xs => xs.foldl min x

/-- Maximum of a nonempty list of rationals (`ndarray.max()`); 0 on the empty
list, which the source never passes. -/
def qmax : List ℚ → ℚ
  | [] => 0
  | x :: xs => xs.foldl max x

/-- Embeds front.one_point_cost lines 91–106, the length-penalty term.
`edges` is the array of point pairs (b_i, c_i); `ab_lens` are the squared
lengths |p-b_i|^2 and `ca_lens` the squared lengths |p-c_i|^2.
Note the source computes `max_len = max(ab_lens.min(), ca_lens.min())`:
both arguments use `.min()`. -/
def length_penalty (pnt : ℚ × ℚ) (edges : List ((ℚ × ℚ) × (ℚ × ℚ)))
    (target_length : ℚ) : ℚ :=
  let ab_lens := edges.map fun e => dist2 e.1 pnt
  let ca_lens := edges.map fun e => dist2 pnt e.2
  let min_len := min (qmin ab_lens) (qmin ca_lens)
  let max_len := max (qmin ab_lens) (qmin ca_lens)
  let undershoot := target_length ^ 2 / min_len
  let overshoot := max_len / target_length ^ 2
  2 * (max undershoot 1 - 1) + 2 * (max overshoot 1 - 1)

/-- Modelled from the spec (section 4.11) and claim C6: the length penalty
with `M` the maximum over all i of the squared lengths |p-b_i|^2 and
|p-c_i|^2, as the claim states it. -/
def length_penalty_claimed (pnt : ℚ × ℚ) (edges : List ((ℚ × ℚ) × (ℚ × ℚ)))
    (target_length : ℚ) : ℚ :=
  let ab_lens := edges.map fun e => dist2 e.1 pnt
  let ca_lens := edges.map fun e => dist2 pnt e.2
  let min_len := min (qmin ab_lens) (qmin ca_lens)
  let max_len := max (qmax ab_lens) (qmax ca_lens)
  let undershoot := target_length ^ 2 / min_len
  let overshoot := max_len / target_length ^ 2
  2 * (max undershoot 1 - 1) + 2 * (max overshoot 1 - 1)

/-! ## C7 definitions: the Join strategy's metric (front.JoinStrategy.metric) -/

/-- Node mobility flags of the advancing front (front.AdvancingFront:
RIGID=1, SLIDE=2, FREE=3). -/
inductive NodeFix where
  | rigid
  | slide
  | free
deriving DecidableEq, Repr

/-- Data of a TriangleSite that JoinStrategy.metric and the claim can
consult: the internal angle at b (radians), the mean edge length, the local
target length, and the `fixed` flags of the endpoints a and c.
The field `piRat` stands for the constant np.pi: the source compares the
angle against `89*np.pi/180`, and the comparison structure is independent of
the numeric value of pi, so pi is carried as a field to keep the embedding
exact and computable. -/
structure SiteData where
  piRat : ℚ
  internalAngle : ℚ
  edgeLength : ℚ
  localLength : ℚ
  aFix : NodeFix
  cFix : NodeFix
deriving DecidableEq, Repr

/-- Embeds front.JoinStrategy.metric (lines 337–352): infinity (none) when
theta > 89·pi/180, otherwise scale_factor · theta with
scale_factor = edge_length / local_length.  The `fixed` flags of the site's
endpoints are not consulted. -/
def joinMetric (s : SiteData) : Option ℚ :=
  if s.internalAngle > 89 * s.piRat / 180 then none
  else some (s.edgeLength / s.localLength * s.internalAngle)

/-- Modelled from the spec (section 4.12, Join) and claim C7: the metric as
the claim states it, additionally returning infinity when neither endpoint is
movable (movable = not RIGID: the spec says Join moves "the FREE- or
SLIDE-fixed endpoint"). -/
def joinMetricClaimed (s : SiteData) : Option ℚ :=
  if s.internalAngle > 89 * s.piRat / 180 ∨ (s.aFix = .rigid ∧ s.cFix = .rigid)
  then none
  else some (s.edgeLength / s.localLength * s.internalAngle)

/-- Concrete site refuting claim C7: both endpoints RIGID, angle below the
89-degree cutoff (with pi = 157/50, theta = pi/4 = 157/200). -/
def joinCexSite : SiteData :=
  { piRat := 157 / 50, internalAngle := 157 / 200, edgeLength := 1,
    localLength := 1, aFix := .rigid, cFix := .rigid }

/-! ## C8 definitions: Curve.distance_away (front.py lines 179–233)

The curve evaluation `self(f)` and the Euclidean norm `utils.dist` are
passed in as function parameters: `Curve.__call__` interpolates a piecewise
linear path and `utils.dist` is an external helper, while the claim C8 is
about the control structure of distance_away itself — the tolerance of the
returned point and the bounded bracketing/bisection loops. -/

/-- Exceptions raised by Curve.distance_away; both are CurveException in the
source, distinguished here by their message. -/
inductive CurveErr where
  | distanceGotSmaller
  | binarySearchFailed
deriving DecidableEq, Repr

/-- Difference of two points, the `anchor_x - new_x` of the source. -/
def vsub (u v : ℚ × ℚ) : ℚ × ℚ := (u.1 - v.1, u.2 - v.2)

/-- Embeds the bisection loop of Curve.distance_away (source lines 218–233):
`for step in range(10)` is the fuel; exhausting it raises
CurveException("Binary search failed"). -/
def bisectLoop (curve : ℚ → ℚ × ℚ) (dist : ℚ × ℚ → ℚ)
    (anchorX : ℚ × ℚ) (anchorF targetD rtol : ℚ) :
    Nat → ℚ → ℚ → Except CurveErr (ℚ × (ℚ × ℚ))
  | 0, _, _ => .error .binarySearchFailed
  | fuel + 1, lowOffset, highOffset =>
    let midOffset := (lowOffset + highOffset) / 2
    let midX := curve (anchorF + midOffset)
    let midD := dist (vsub anchorX midX)
    let relErr := (midD - targetD) / targetD
    if -rtol < relErr ∧ relErr < rtol then .ok (anchorF + midOffset, midX)
    else if midD < targetD then
      bisectLoop curve dist anchorX anchorF targetD rtol fuel midOffset highOffset
    else
      bisectLoop curve dist anchorX anchorF targetD rtol fuel lowOffset midOffset

/-- Embeds the geometric-expansion loop of Curve.distance_away (source lines
199–217): at most 10 steps of growth by the factor 1.5; a distance that
shrinks while still short raises CurveException("Distance got smaller");
otherwise the loop hands a bracket to the bisection. -/
def expandLoop (curve : ℚ → ℚ × ℚ) (dist : ℚ × ℚ → ℚ)
    (anchorX : ℚ × ℚ) (anchorF targetD rtol : ℚ) :
    Nat → ℚ → ℚ → ℚ → Except CurveErr (ℚ × (ℚ × ℚ))
  | 0, offset, lastOffset, _ =>
    bisectLoop curve dist anchorX anchorF targetD rtol 10 lastOffset offset
  | fuel + 1, offset, lastOffset, lastD =>
    let newX := curve (anchorF + offset)
    let d := dist (vsub anchorX newX)
    let relErr := (d - targetD) / targetD
    if -rtol < relErr ∧ relErr < rtol then .ok (anchorF + offset, newX)
    else if relErr < 0 then
      if d < lastD then .error .distanceGotSmaller
      else expandLoop curve dist anchorX anchorF targetD rtol fuel
             (offset * (3 / 2)) offset d
    else
      bisectLoop curve dist anchorX anchorF targetD rtol 10 lastOffset offset

/-- Embeds Curve.distance_away(anchor_f, signed_distance, rtol): bracketing
from offset = signed_distance with last_offset = last_d = 0, then bisection. -/
def distance_away (curve : ℚ → ℚ × ℚ) (dist : ℚ × ℚ → ℚ)
    (anchorF signedDistance rtol : ℚ) : Except CurveErr (ℚ × (ℚ × ℚ)) :=
  expandLoop curve dist (curve anchorF) anchorF |signedDistance| rtol
    10 signedDistance 0 0

/-! ## C9 definitions: one iteration of Triangulation.fill_hole
(exact_delaunay.py lines 710–801)

A hole boundary element is `some n` for node n and `none` for the `'inf'`
sentinel the source uses for convex-hull gaps.  Node coordinates are
supplied as a function from node id. -/

/-- Hole boundary element: `some n` is node n, `none` is `'inf'`. -/
abbrev HoleElt := Option Nat

/-- First index of an element in a hole boundary, the `list.index` of the
source (index of the first occurrence). -/
def holeIndexOf (c : HoleElt) : List HoleElt → Nat
  | [] => 0
  | x :: xs => if x = c then 0 else holeIndexOf c xs + 1

/-- Embeds the candidate-elimination loop of fill_hole (source lines
746–760): while more than one candidate remains, the head candidate c is
discarded as soon as some later candidate d is strictly inside the
circumcircle of (a,b,c); a head that passes every test is selected. -/
def selectCandidate {α : Type} [LinearOrderedCommRing α]
    (xs : Nat → α × α) (a b : Nat) : List Nat → Option Nat
  | [] => none
  | [c] => some c
  | c :: c2 :: rest =>
    if (c2 :: rest).any fun d => decide (0 < incircle (xs a) (xs b) (xs c) (xs d))
    then selectCandidate xs a b (c2 :: rest)
    else some c

/-- Embeds the hole bookkeeping at the end of a fill_hole iteration (source
lines 777–801): a 3-element hole is finished; a chosen vertex adjacent to the
leading edge trims the hole by one; otherwise the hole splits in two at the
chosen vertex.  Returns the holes pushed back, in push order. -/
def holeUpdate (hole : List HoleElt) (c : HoleElt) : List (List HoleElt) :=
  if hole.length = 3 then []
  else if hole[2]? = some c then [hole.take 1 ++ [c] ++ hole.drop 3]
  else if hole.getLast? = some c then [hole.drop 1]
  else
    let idx := holeIndexOf c hole
    [(hole.drop 1).take idx, hole.drop idx ++ hole.take 1]

/-- Embeds one iteration of the fill_hole work-stack loop, after the
rotation that makes the first two elements non-inf (source lines 723–801):
collect the candidates left of a→b, select the Delaunay-optimal c, fall back
to 'inf' when no finite candidate survives but an inf was seen, and return
the cell to emit (if any) together with the holes pushed back.  `none`
models the IndexError the source would hit when no candidate and no inf
exists. -/
def fillHoleStep {α : Type} [LinearOrderedCommRing α]
    (xs : Nat → α × α) (hole : List HoleElt) :
    Option (Option (Nat × Nat × Nat) × List (List HoleElt)) :=
  match hole with
  | some a :: some b :: rest =>
    let cands := (rest.filterMap id).filter fun c =>
      decide (0 < orientation (xs a) (xs b) (xs c))
    match selectCandidate xs a b cands with
    | some c => some (some (a, b, c), holeUpdate hole (some c))
    | none =>
      if (none : HoleElt) ∈ rest then some (none, holeUpdate hole none) else none
  | _ => none

/-- Measure of one pending hole: its node count minus 2, the number of
triangles still owed for it. -/
def holeMeasure (h : List HoleElt) : Nat := h.length - 2

/-- Total measure of a stack of pending holes. -/
def stackMeasure (hs : List (List HoleElt)) : Nat := (hs.map holeMeasure).sum

/-- Total boundary length of a stack of pending holes, counted as boundary
edges: a hole that is a closed loop of k elements has k boundary edges. -/
def stackBoundaryLength (hs : List (List HoleElt)) : Nat :=
  (hs.map List.length).sum

/-- Node coordinates of the C9 counterexample: a pentagonal hole whose
Delaunay-best vertex for the leading edge is the middle candidate.
Integer coordinates, so the exact predicates evaluate by kernel reduction. -/
def holeCexX : Nat → ℤ × ℤ
  | 0 => (0, 0)
  | 1 => (4, 0)
  | 2 => (5, 3)
  | 3 => (2, 1)
  | _ => (-1, 3)

/-- The pentagonal hole of the C9 counterexample. -/
def holeCex : List HoleElt := [some 0, some 1, some 2, some 3, some 4]

/-! ## C10 definitions: Triangulation.add_node and the DuplicateNode path
(exact_delaunay.py lines 55–65 and 366–387) -/

/-- Node record of the mesh container: position and tombstone flag. -/
structure NodeRec (α : Type) where
  x : α × α
  deleted : Bool
deriving DecidableEq, Repr

/-- Classification returned by Triangulation.locate (the loc_type values
IN_VERTEX, IN_EDGE, IN_FACE, OUTSIDE_CONVEX_HULL, OUTSIDE_AFFINE_HULL). -/
inductive LocKind where
  | inVertex (n : Nat)
  | inEdge (j : Nat)
  | inFace (c : Nat)
  | outsideConvexHull
  | outsideAffineHull
deriving DecidableEq, Repr

/-- Error raised by tri_insert when locate classified the point as a
coincident vertex. -/
inductive DupErr where
  | duplicateNode
deriving DecidableEq, Repr

/-- Embeds Triangulation.add_node (source lines 55–65) at the level of node
storage, together with the dispatch of tri_insert (lines 366–387): locate
runs first (a pure query over the current mesh, passed as a parameter since
its walk spans structures beyond node storage); the base-class add_node then
appends the node record; tri_insert raises DuplicateNode afterwards when the
point was classified IN_VERTEX, and nothing removes the appended record.
The remaining tri_insert branches create edges and cells but never touch
node storage, so at this level they return the new node id. -/
def add_node {α : Type} (locate : List (NodeRec α) → α × α → LocKind)
    (nodes : List (NodeRec α)) (x : α × α) :
    List (NodeRec α) × Except DupErr Nat :=
  let loc := locate nodes x
  let n := nodes.length
  let nodes1 := nodes ++ [⟨x, false⟩]
  match loc with
  | .inVertex _ => (nodes1, .error .duplicateNode)
  | _ => (nodes1, .ok n)

/-- Toy locate for the C10 witness: IN_VERTEX whenever a live node already
sits at the target point. -/
def locateDupCex : List (NodeRec ℤ) → ℤ × ℤ → LocKind := fun ns t =>
  if ns.any fun r => !r.deleted && decide (r.x = t) then .inVertex 0
  else .outsideAffineHull

/-! ## Mesh model for C3, C4 and C5

The mesh container (external, spec section 6) holds stable-indexed arrays of
nodes, edges and cells with tombstone deletion.  Edges carry an ordered node
pair, (cell_left, cell_right) slots as integers so the negative INF_CELL
sentinel fits, and the CDT's `constrained` flag.  Cells carry a CCW node
triple and their three edge ids (edge i connects cell nodes i and i+1, the
convention Triangulation.add_cell establishes). -/

/-- Modelled from the spec: the INF_CELL sentinel, a negative cell id meaning
"outside the convex hull" (its concrete value lives in the external
container). -/
def INF_CELL : Int := -2

/-- Edge record of the CDT mesh. -/
structure TriEdge where
  n0 : Nat
  n1 : Nat
  cLeft : Int
  cRight : Int
  constrained : Bool
  deleted : Bool
deriving DecidableEq, Repr

instance : Inhabited TriEdge := ⟨⟨0, 0, 0, 0, false, false⟩⟩

/-- Cell record of the CDT mesh: CCW nodes n0 n1 n2 and edges e0 e1 e2 with
edge i joining nodes i and (i+1) mod 3. -/
structure TriCell where
  n0 : Nat
  n1 : Nat
  n2 : Nat
  e0 : Nat
  e1 : Nat
  e2 : Nat
  deleted : Bool
deriving DecidableEq, Repr

instance : Inhabited TriCell := ⟨⟨0, 0, 0, 0, 0, 0, false⟩⟩

/-- The CDT mesh state: node positions, edges, cells. -/
structure Mesh (α : Type) where
  nodeX : List (α × α)
  edges : List TriEdge
  cells : List TriCell
deriving DecidableEq, Repr

/-- In-place update of one list entry (the ndarray row assignment of the
source); out-of-range indices leave the list unchanged. -/
def listModify {β : Type} (f : β → β) : List β → Nat → List β
  | [], _ => []
  | x :: xs, 0 => f x :: xs
  | x :: xs, j + 1 => x :: listModify f xs j

/-- Position of node n (nodes['x'][n]). -/
def Mesh.x {α : Type} [LinearOrderedCommRing α] (m : Mesh α) (n : Nat) : α × α :=
  m.nodeX.getD n (0, 0)

/-- Edge record j (edges[j]); default record for out-of-range reads. -/
def Mesh.edgeRec {α : Type} (m : Mesh α) (j : Nat) : TriEdge :=
  m.edges.getD j default

/-- Cell record c (cells[c]). -/
def Mesh.cellRec {α : Type} (m : Mesh α) (c : Nat) : TriCell :=
  m.cells.getD c default

/-- Modelled from the spec: nodes_to_edge of the external container — the
first live edge joining a and b in either direction. -/
def Mesh.nodesToEdge {α : Type} (m : Mesh α) (a b : Nat) : Option Nat :=
  m.edges.findIdx? fun e =>
    !e.deleted && ((e.n0 == a && e.n1 == b) || (e.n0 == b && e.n1 == a))

/-- Tombstone-delete cell c. -/
def Mesh.deleteCell {α : Type} (m : Mesh α) (c : Nat) : Mesh α :=
  { m with cells := listModify (fun cl => { cl with deleted := true }) m.cells c }

/-- Tombstone-delete edge j. -/
def Mesh.deleteEdge {α : Type} (m : Mesh α) (j : Nat) : Mesh α :=
  { m with edges := listModify (fun e => { e with deleted := true }) m.edges j }

/-- Retarget the node pair of edge j (modify_edge(j, nodes=[a,b])). -/
def Mesh.modifyEdgeNodes {α : Type} (m : Mesh α) (j a b : Nat) : Mesh α :=
  { m with edges := listModify (fun e => { e with n0 := a, n1 := b }) m.edges j }

/-- Set the constrained flag of edge j. -/
def Mesh.setConstrained {α : Type} (m : Mesh α) (j : Nat) (v : Bool) : Mesh α :=
  { m with edges := listModify (fun e => { e with constrained := v }) m.edges j }

/-- Embeds Triangulation.add_edge (source lines 109–115): append an edge
whose cell slots default to INF_CELL. -/
def Mesh.addEdge {α : Type} (m : Mesh α) (a b : Nat) (cons : Bool) : Mesh α × Nat :=
  ({ m with edges := m.edges ++ [⟨a, b, INF_CELL, INF_CELL, cons, false⟩] },
   m.edges.length)

/-- Embeds Triangulation.add_cell (source lines 526–563) with
_force_invariants: reject collinear triples (the assert), reverse the node
order when it is CW, look up the three boundary edges, append the cell, and
re-link each edge's left or right cell slot according to whether the edge's
stored direction agrees with the cell's traversal.  `none` models the assert
failure and the None edge lookups the base class would reject. -/
def Mesh.addCell {α : Type} [LinearOrderedCommRing α] (m : Mesh α)
    (na nb nc : Nat) : Option (Mesh α × Nat) :=
  let ccw := orientation (m.x na) (m.x nb) (m.x nc)
  if ccw = 0 then none
  else
    let v0 := if ccw < 0 then nc else na
    let v1 := nb
    let v2 := if ccw < 0 then na else nc
    match m.nodesToEdge v0 v1, m.nodesToEdge v1 v2, m.nodesToEdge v2 v0 with
    | some j0, some j1, some j2 =>
      let cid := m.cells.length
      let m1 : Mesh α :=
        { m with cells := m.cells ++ [⟨v0, v1, v2, j0, j1, j2, false⟩] }
      let relink := fun (mm : Mesh α) (j : Nat) (nFirst : Nat) =>
        { mm with edges := listModify (fun e =>
            if e.n0 = nFirst then { e with cLeft := Int.ofNat cid }
            else { e with cRight := Int.ofNat cid }) mm.edges j }
      some (relink (relink (relink m1 j0 v0) j1 v1) j2 v2, cid)
    | _, _, _ => none

/-- Modelled from the spec: add_cell_and_edges of the external container —
create any of the three boundary edges that are missing, then add_cell. -/
def Mesh.addCellAndEdges {α : Type} [LinearOrderedCommRing α] (m : Mesh α)
    (na nb nc : Nat) : Option (Mesh α × Nat) :=
  let m1 := if (m.nodesToEdge na nb).isSome then m else (m.addEdge na nb false).1
  let m2 := if (m1.nodesToEdge nb nc).isSome then m1 else (m1.addEdge nb nc false).1
  let m3 := if (m2.nodesToEdge nc na).isSome then m2 else (m2.addEdge nc na false).1
  m3.addCell na nb nc

/-! ## Halfedge navigation, modelled from the spec (section 3)

A halfedge is (edge id, orientation); orientation false traverses the edge
from n0 to n1 and faces the left cell slot — the convention under which
add_cell's relinking registers a cell in the left slot exactly when the
edge's stored direction agrees with the cell's CCW traversal. -/

/-- Halfedge reference. -/
structure HalfEdgeRef where
  j : Nat
  orient : Bool
deriving DecidableEq, Repr

/-- Start node of a halfedge (node_rev). -/
def Mesh.heNodeRev {α : Type} (m : Mesh α) (he : HalfEdgeRef) : Nat :=
  if he.orient then (m.edgeRec he.j).n1 else (m.edgeRec he.j).n0

/-- End node of a halfedge (node_fwd). -/
def Mesh.heNodeFwd {α : Type} (m : Mesh α) (he : HalfEdgeRef) : Nat :=
  if he.orient then (m.edgeRec he.j).n0 else (m.edgeRec he.j).n1

/-- Cell a halfedge faces (cell()). -/
def Mesh.heCell {α : Type} (m : Mesh α) (he : HalfEdgeRef) : Int :=
  if he.orient then (m.edgeRec he.j).cRight else (m.edgeRec he.j).cLeft

/-- Halfedge of cell c departing from cell-node slot ji (slot ji uses edge
e_ji, which joins cell nodes ji and ji+1). -/
def Mesh.cellHalfEdge {α : Type} (m : Mesh α) (c : Nat) (ji : Nat) : HalfEdgeRef :=
  let cl := m.cellRec c
  let e := match ji with | 0 => cl.e0 | 1 => cl.e1 | _ => cl.e2
  let nstart := match ji with | 0 => cl.n0 | 1 => cl.n1 | _ => cl.n2
  ⟨e, decide ((m.edgeRec e).n0 ≠ nstart)⟩

/-- Next halfedge around the faced cell (fwd()): the halfedge of the same
cell that departs from this halfedge's end node. -/
def Mesh.heFwd {α : Type} (m : Mesh α) (he : HalfEdgeRef) : Option HalfEdgeRef :=
  match m.heCell he with
  | Int.ofNat c =>
    let cl := m.cellRec c
    let target := m.heNodeFwd he
    if cl.n0 = target then some (m.cellHalfEdge c 0)
    else if cl.n1 = target then some (m.cellHalfEdge c 1)
    else if cl.n2 = target then some (m.cellHalfEdge c 2)
    else none
  | _ => none

/-- Apex of cell c relative to edge j: the cell node that is not an endpoint
of j (the opposite vertex the claims about flip_edge speak of). -/
def Mesh.apexOf {α : Type} (m : Mesh α) (c : Nat) (j : Nat) : Option Nat :=
  let cl := m.cellRec c
  let e := m.edgeRec j
  [cl.n0, cl.n1, cl.n2].find? fun n => decide (n ≠ e.n0) && decide (n ≠ e.n1)

/-- Embeds Triangulation.flip_edge (source lines 565–610): require finite
cells on both sides (the asserts), read the endpoints (na, nc), obtain the
apexes nd (left, via he_left.fwd().node_fwd()) and nb (right, via
he_right.fwd().node_fwd()) before any deletion, delete both cells, retarget
edge j to [nb, nd], and add the cells (na, nb, nd) and (nc, nd, nb), which
also re-links edge-to-cell pointers.  Returns the two new cell ids. -/
def flip_edge {α : Type} [LinearOrderedCommRing α] (m : Mesh α) (j : Nat) :
    Option (Mesh α × Nat × Nat) :=
  let e := m.edgeRec j
  if e.cLeft < 0 ∨ e.cRight < 0 then none
  else
    let na := e.n0
    let nc := e.n1
    match m.heFwd ⟨j, false⟩, m.heFwd ⟨j, true⟩ with
    | some hl, some hr =>
      let nd := m.heNodeFwd hl
      let nb := m.heNodeFwd hr
      let m1 := m.deleteCell e.cLeft.toNat
      let m2 := m1.deleteCell e.cRight.toNat
      let m3 := m2.modifyEdgeNodes j nb nd
      match m3.addCell na nb nd with
      | none => none
      | some (m4, newLeft) =>
        match m4.addCell nc nd nb with
        | none => none
        | some (m5, newRight) => some (m5, newLeft, newRight)
    | _, _ => none

/-- The canonical two-triangle mesh around a flippable edge: nodes
a=0, b=1, c=2, d=3 at arbitrary positions; edge 0 is the diagonal (a,c) with
left cell 0 = (a,c,d) and right cell 1 = (c,a,b); the four quad boundary
edges follow. -/
def quadMesh {α : Type} (pa pb pc pd : α × α) : Mesh α :=
  { nodeX := [pa, pb, pc, pd],
    edges := [⟨0, 2, 0, 1, false, false⟩,
              ⟨2, 3, 0, INF_CELL, false, false⟩,
              ⟨3, 0, 0, INF_CELL, false, false⟩,
              ⟨0, 1, 1, INF_CELL, false, false⟩,
              ⟨1, 2, 1, INF_CELL, false, false⟩],
    cells := [⟨0, 2, 3, 0, 1, 2, false⟩,
              ⟨2, 0, 1, 0, 3, 4, false⟩] }

/-! ## C3 and C4 definitions: Triangulation.add_constraint
(exact_delaunay.py lines 1096–1147)

The intersection history produced by find_intersected_elements is taken as
an input list: the walk itself is a pure query (it only reads the mesh), and
claims C3/C4 are about what add_constraint does with the history.  A history
element carries the data the add_constraint loop reads from it: for an edge
element, the edge id and the two endpoint nodes of the crossed halfedge. -/

/-- Element of the intersection history: ('node', n), ('edge', halfedge) with
its id, node_fwd and node_rev, or ('cell', c). -/
inductive IntElt where
  | node (n : Nat)
  | edge (j : Nat) (nodeFwd : Nat) (nodeRev : Nat)
  | cell (c : Nat)
deriving DecidableEq, Repr

/-- CDT exceptions surfaced by add_constraint: the two BadConstraint
subclasses, the AssertionError of the existing-edge branch, and a
runtime-error bucket for failures of the downstream hole filling. -/
inductive CdtErr where
  | intersectingConstraints
  | constraintCollinearNode
  | assertionFailed
  | runtimeError
deriving DecidableEq, Repr

/-- An intermediate walk element on which the add_constraint loop raises:
a node (ConstraintCollinearNode) or an already-constrained edge
(IntersectingConstraints). -/
def offending {α : Type} (m : Mesh α) : IntElt → Bool
  | .node _ => true
  | .edge j _ _ => (m.edgeRec j).constrained
  | .cell _ => false

/-- Embeds the scanning loop of add_constraint (source lines 1114–1130):
walk the intermediate elements in order, failing on the first node element
or constrained edge, and otherwise accumulate the hole boundaries
(left CW, right CCW, duplicates collapsed against the running last entry)
and the cells and edges to delete.  The mesh is only read, never written. -/
def constraintScan {α : Type} (m : Mesh α) :
    List IntElt → List Nat → List Nat → List Nat → List Nat →
    Except CdtErr (List Nat × List Nat × List Nat × List Nat)
  | [], leftN, rightN, deadC, deadE => .ok (leftN, rightN, deadC, deadE)
  | elt :: rest, leftN, rightN, deadC, deadE =>
    match elt with
    | .node _ => .error .constraintCollinearNode
    | .cell c => constraintScan m rest leftN rightN (deadC ++ [c]) deadE
    | .edge j nf nr =>
      if (m.edgeRec j).constrained then .error .intersectingConstraints
      else
        let leftN1 := if leftN.getLast? = some nf then leftN else leftN ++ [nf]
        let rightN1 := if rightN.getLast? = some nr then rightN else rightN ++ [nr]
        constraintScan m rest leftN1 rightN1 deadC (deadE ++ [j])

/-- Embeds the rotation at the top of each fill_hole iteration (source lines
720–721): rotate until the first two elements are not 'inf'; fuelled, since
a boundary of only sentinels would spin forever. -/
def fillHoleRotate : Nat → List HoleElt → Option (List HoleElt)
  | 0, _ => none
  | fuel + 1, hole =>
    if (none : HoleElt) ∈ hole.take 2
    then fillHoleRotate fuel (hole.drop 1 ++ hole.take 1)
    else some hole

/-- Embeds the fill_hole work-stack loop on the mesh (source lines 717–801):
pop the most recently pushed hole, rotate, run one step, emit the cell (with
its missing edges) when the step produced one, and push the returned holes.
`none` models a crash (IndexError / stuck rotation) or fuel exhaustion. -/
def fillHoleLoop {α : Type} [LinearOrderedCommRing α] :
    Nat → Mesh α → List (List HoleElt) → Option (Mesh α)
  | _, m, [] => some m
  | 0, _, _ => none
  | fuel + 1, m, stack =>
    match stack.getLast? with
    | none => some m
    | some hole =>
      match fillHoleRotate (hole.length + 1) hole with
      | none => none
      | some hole1 =>
        match fillHoleStep (fun n => m.x n) hole1 with
        | none => none
        | some (cellOpt, newHoles) =>
          match cellOpt with
          | some (a2, b2, c2) =>
            match m.addCellAndEdges a2 b2 c2 with
            | none => none
            | some (m1, _) => fillHoleLoop fuel m1 (stack.dropLast ++ newHoles)
          | none => fillHoleLoop fuel m (stack.dropLast ++ newHoles)

/-- Embeds Triangulation.fill_hole (source lines 710–801) on one hole; the
fuel suffices because every iteration owes one fewer triangle. -/
def Mesh.fillHole {α : Type} [LinearOrderedCommRing α] (m : Mesh α)
    (hole : List HoleElt) : Option (Mesh α) :=
  fillHoleLoop (hole.length + 1) m [hole]

/-- The commit phase of add_constraint, reached only after the whole walk
has been scanned without failure (source lines 1131–1147): delete the
crossed cells and edges, add the constrained edge, and fill the two holes
(left boundary reversed, nB appended to both). -/
def constraintCommit {α : Type} [LinearOrderedCommRing α] (m : Mesh α)
    (nA nB : Nat) (out : List Nat × List Nat × List Nat × List Nat) :
    Mesh α × Option CdtErr :=
  let leftN1 := (out.1 ++ [nB]).reverse
  let rightN1 := out.2.1 ++ [nB]
  let m1 := out.2.2.1.foldl (fun mm c => mm.deleteCell c) m
  let m2 := out.2.2.2.foldl (fun mm j => mm.deleteEdge j) m1
  let m3 := (m2.addEdge nA nB true).1
  match m3.fillHole (leftN1.map some) with
  | none => (m3, some .runtimeError)
  | some m4 =>
    match m4.fillHole (rightN1.map some) with
    | none => (m4, some .runtimeError)
    | some m5 => (m5, none)

/-- Embeds Triangulation.add_constraint (source lines 1096–1147).  If an
edge already joins nA and nB, assert it is not yet constrained (a constrained
existing edge fails the assert) and mark it.  Otherwise scan the intersection
history; on a scan failure the mesh is returned untouched with the exception,
and only on a fully successful scan does the commit phase mutate anything.
Returns the final mesh together with the exception raised, if any. -/
def add_constraint {α : Type} [LinearOrderedCommRing α] (m : Mesh α)
    (nA nB : Nat) (intElts : List IntElt) : Mesh α × Option CdtErr :=
  match m.nodesToEdge nA nB with
  | some jAB =>
    if (m.edgeRec jAB).constrained then (m, some .assertionFailed)
    else (m.setConstrained jAB true, none)
  | none =>
    match constraintScan m ((intElts.drop 1).dropLast) [nA] [nA] [] [] with
    | .error e => (m, some e)
    | .ok out => constraintCommit m nA nB out

/-- Mesh of the C4 counterexample: two nodes joined by an edge that is
already constrained. -/
def consCexMesh : Mesh ℤ :=
  { nodeX := [(0, 0), (1, 0)],
    edges := [⟨0, 1, INF_CELL, INF_CELL, true, false⟩],
    cells := [] }

/-- Mesh for the C4 witness: two nodes joined by an unconstrained edge. -/
def consOkMesh : Mesh ℤ :=
  { nodeX := [(0, 0), (1, 0)],
    edges := [⟨0, 1, INF_CELL, INF_CELL, false, false⟩],
    cells := [] }

/-- Mesh for the C3 witness: the requested constraint 0–1 crosses the
already-constrained edge 2–3. -/
def walkCexMesh : Mesh ℤ :=
  { nodeX := [(0, 0), (2, 0), (1, 1), (1, -1)],
    edges := [⟨2, 3, INF_CELL, INF_CELL, true, false⟩],
    cells := [] }

/-- Intersection history for the C3 witness: start node, one crossed edge,
end node. -/
def walkCexElts : List IntElt := [.node 0, .edge 0 2 3, .node 1]

/-! ## C2 definitions: Triangulation.modify_node (exact_delaunay.py lines
67–107)

modify_node orchestrates container and CDT primitives — delete_node,
add_node with the _index hint, add_constraint — whose own bodies span the
whole CDT; the claim is about the save/delete/reinsert/rollback protocol, so
the primitives form a parameter bundle and the protocol is proved under
their contracts (stated as hypotheses and discharged by the witness on a
concrete instance). -/

/-- Exceptions of add_constraint as modify_node's handler sees them: the
`except self.IntersectingConstraints` clause catches exactly
IntersectingConstraints; anything else propagates without rollback. -/
inductive ModErr where
  | intersecting
  | other
deriving DecidableEq, Repr

/-- The container and CDT primitives used by modify_node over an abstract
grid state S with positions in P: delete_node, add_node(_index=i, x=x)
returning the new id, add_constraint, the saved list of constrained node
pairs incident to a node (node_to_edges filtered to constrained), the node
position, and the constrained-edge observation. -/
structure GridOps (S P : Type) where
  delNode : S → Nat → S
  addNodeAt : S → Nat → P → S × Nat
  addCons : S → Nat × Nat → Except ModErr S
  consAt : S → Nat → List (Nat × Nat)
  pos : S → Nat → P
  isCons : S → Nat × Nat → Bool

/-- The re-adding loop `for n1,n2 in constraints_to_replace:
add_constraint(n1,n2)`: state reached and first exception, if any (a failing
add_constraint leaves the state unchanged — the atomicity established for
claim C3). -/
def addAllCons {S P : Type} (ops : GridOps S P) :
    S → List (Nat × Nat) → S × Option ModErr
  | s, [] => (s, none)
  | s, p :: ps =>
    match ops.addCons s p with
    | .ok s1 => addAllCons ops s1 ps
    | .error e => (s, some e)

/-- Embeds Triangulation.modify_node (source lines 67–107) for a coordinate
change: save the incident constrained edges as node pairs and the old
position, delete the node, re-add at the new position with the same id,
re-add the saved constraints; if one raises IntersectingConstraints, delete
again, re-add at the original position, re-add all saved constraints, and
re-raise (an exception raised during the rollback replay itself propagates
instead, and any non-IntersectingConstraints exception propagates without
rollback, exactly as in the source). -/
def modify_node {S P : Type} (ops : GridOps S P) (s : S) (n : Nat) (newx : P) :
    S × Option ModErr :=
  let saved := ops.consAt s n
  let oldx := ops.pos s n
  let s1 := ops.delNode s n
  let s2 := (ops.addNodeAt s1 n newx).1
  match addAllCons ops s2 saved with
  | (s3, none) => (s3, none)
  | (s3, some .intersecting) =>
    let s4 := ops.delNode s3 n
    let s5 := (ops.addNodeAt s4 n oldx).1
    match addAllCons ops s5 saved with
    | (s6, none) => (s6, some .intersecting)
    | (s6, some e) => (s6, some e)
  | (s3, some .other) => (s3, some .other)

/-- Toy grid state for the C2 witness: the constrained pair list and an
association list of node positions (latest entry wins). -/
abbrev ToyS := List (Nat × Nat) × List (Nat × (ℤ × ℤ))

/-- Position lookup in the toy state. -/
def toyPos (s : ToyS) (n : Nat) : ℤ × ℤ :=
  match s.2.find? fun q => q.1 == n with
  | some q => q.2
  | none => (0, 0)

/-- Toy primitives for the C2 witness: deleting a node drops its incident
constrained pairs; adding a node at index i records its position; adding a
constraint fails with IntersectingConstraints exactly while node 0 sits at
the conflicting position (1,1), so the first replay fails and the rollback
replay succeeds. -/
def toyOps : GridOps ToyS (ℤ × ℤ) :=
  { delNode := fun s n => (s.1.filter fun p => !(p.1 == n || p.2 == n), s.2),
    addNodeAt := fun s i x => ((s.1, (i, x) :: s.2), i),
    addCons := fun s p =>
      if toyPos s 0 = (1, 1) then .error .intersecting else .ok (p :: s.1, s.2),
    consAt := fun s n => s.1.filter fun p => p.1 == n || p.2 == n,
    pos := toyPos,
    isCons := fun s p => s.1.contains p }

end Stompy

/-! # Theorems -/

namespace Stompy

/-- C6: the code's length penalty disagrees with the claimed formula.  At
p = (0,0), edges [((1,0),(0,1)), ((10,0),(0,1))] and target length L = 1, the
squared lengths are ab = [1, 100] and ca = [1, 1]; the claim's M is 100 and
its penalty 2·(max(100,1)−1) = 198, but the source computes
`max_len = max(ab_lens.min(), ca_lens.min()) = 1` (both arguments take
`.min()`), giving penalty 0.  The code contradicts the meaning of its own
`max_len` variable; the spec formula is the evident intent. -/
theorem one_point_cost_length_penalty_bug :
    length_penalty (0, 0) [((1, 0), (0, 1)), ((10, 0), (0, 1))] 1 = 0 ∧
    length_penalty_claimed (0, 0) [((1, 0), (0, 1)), ((10, 0), (0, 1))] 1 = 198 := by
  constructor <;> norm_num [length_penalty, length_penalty_claimed, dist2, qmin, qmax]

/-- C7 counterexample: at a site whose two endpoints are both RIGID (neither
movable) and whose internal angle is below the cutoff, JoinStrategy.metric
returns scale_factor·theta, not infinity, contradicting the claim that the
metric is infinite when neither endpoint of the site is movable. -/
theorem join_metric_ignores_movability_cex :
    joinCexSite.aFix = .rigid ∧ joinCexSite.cFix = .rigid ∧
    joinMetric joinCexSite = some (157 / 200) ∧
    joinMetricClaimed joinCexSite = none := by
  refine ⟨rfl, rfl, ?_, ?_⟩ <;> norm_num [joinMetric, joinMetricClaimed, joinCexSite]

/-- C7 as amended: JoinStrategy.metric returns infinity exactly when
theta > 89·pi/180 and scale_factor·theta otherwise, regardless of the
mobility of the endpoints (the mobility requirement is enforced later, by
JoinStrategy.execute raising StrategyFailed). -/
theorem join_metric_spec (pr th el ll : ℚ) (fa fc fa' fc' : NodeFix) :
    joinMetric ⟨pr, th, el, ll, fa, fc⟩ = joinMetric ⟨pr, th, el, ll, fa', fc'⟩ ∧
    (th ≤ 89 * pr / 180 →
      joinMetric ⟨pr, th, el, ll, fa, fc⟩ = some (el / ll * th)) ∧
    (89 * pr / 180 < th → joinMetric ⟨pr, th, el, ll, fa, fc⟩ = none) := by
  refine ⟨rfl, fun h => ?_, fun h => ?_⟩
  · simp [joinMetric, not_lt.mpr h]
  · simp [joinMetric, h]

/-- Witness for join_metric_spec at pi = 157/50, theta = 157/200,
edge length 3, local length 2, endpoints FREE and RIGID: the below-cutoff
hypothesis is discharged numerically. -/
theorem join_metric_spec_witness :
    joinMetric ⟨157/50, 157/200, 3, 2, .free, .rigid⟩ =
      joinMetric ⟨157/50, 157/200, 3, 2, .rigid, .rigid⟩ ∧
    joinMetric ⟨157/50, 157/200, 3, 2, .free, .rigid⟩ = some (3 / 2 * (157/200)) :=
  ⟨(join_metric_spec (157/50) (157/200) 3 2 .free .rigid .rigid .rigid).1,
   (join_metric_spec (157/50) (157/200) 3 2 .free .rigid .rigid .rigid).2.1
     (by norm_num)⟩

/-- Every successful exit of the bisection loop returns the curve point of
the returned parameter, at relative distance error strictly inside rtol. -/
theorem bisectLoop_ok (curve : ℚ → ℚ × ℚ) (dist : ℚ × ℚ → ℚ)
    (anchorX : ℚ × ℚ) (anchorF targetD rtol : ℚ) :
    ∀ fuel lowOffset highOffset f1 x1,
      bisectLoop curve dist anchorX anchorF targetD rtol fuel lowOffset highOffset
        = .ok (f1, x1) →
      x1 = curve f1 ∧
      -rtol < (dist (vsub anchorX x1) - targetD) / targetD ∧
      (dist (vsub anchorX x1) - targetD) / targetD < rtol := by
  intro fuel
  induction fuel with
  | zero => intro _ _ _ _ h; exact absurd h (by simp [bisectLoop])
  | succ n ih =>
    intro lowOffset highOffset f1 x1 h
    rw [bisectLoop] at h
    split at h
    · rename_i htol
      obtain ⟨h1, h2⟩ := Prod.mk.injEq .. ▸ Except.ok.injEq .. ▸ h
      subst h1; subst h2
      exact ⟨rfl, htol.1, htol.2⟩
    · split at h
      · exact ih _ _ _ _ h
      · exact ih _ _ _ _ h

/-- Every successful exit of the expansion loop (directly or through the
bisection it hands off to) satisfies the same tolerance property. -/
theorem expandLoop_ok (curve : ℚ → ℚ × ℚ) (dist : ℚ × ℚ → ℚ)
    (anchorX : ℚ × ℚ) (anchorF targetD rtol : ℚ) :
    ∀ fuel offset lastOffset lastD f1 x1,
      expandLoop curve dist anchorX anchorF targetD rtol fuel offset lastOffset lastD
        = .ok (f1, x1) →
      x1 = curve f1 ∧
      -rtol < (dist (vsub anchorX x1) - targetD) / targetD ∧
      (dist (vsub anchorX x1) - targetD) / targetD < rtol := by
  intro fuel
  induction fuel with
  | zero =>
    intro _ _ _ _ _ h
    exact bisectLoop_ok curve dist anchorX anchorF targetD rtol _ _ _ _ _ h
  | succ n ih =>
    intro offset lastOffset lastD f1 x1 h
    rw [expandLoop] at h
    split at h
    · rename_i htol
      obtain ⟨h1, h2⟩ := Prod.mk.injEq .. ▸ Except.ok.injEq .. ▸ h
      subst h1; subst h2
      exact ⟨rfl, htol.1, htol.2⟩
    · split at h
      · split at h
        · exact absurd h (by simp)
        · exact ih _ _ _ _ _ h
      · exact bisectLoop_ok curve dist anchorX anchorF targetD rtol _ _ _ _ _ h

/-- C8: whenever distance_away returns normally with (f1, x1), x1 is the
curve evaluated at f1 and the distance dist(eval(f0) - x1) differs from
|d| by at most rtol·|d| (the source's strict relative-error test); and the
failure mode is bounded: 10 expansion steps of factor 3/2 are hard-coded in
distance_away, after which the bisection runs on fuel 10 and raising
CurveException("Binary search failed") is exactly its out-of-fuel case. -/
theorem distance_away_spec (curve : ℚ → ℚ × ℚ) (dist : ℚ × ℚ → ℚ)
    (anchorF signedDistance rtol : ℚ) (hd : signedDistance ≠ 0) :
    (∀ f1 x1, distance_away curve dist anchorF signedDistance rtol = .ok (f1, x1) →
      x1 = curve f1 ∧
      abs (dist (vsub (curve anchorF) x1) - |signedDistance|) ≤ rtol * |signedDistance|) ∧
    (∀ lowOffset highOffset,
      bisectLoop curve dist (curve anchorF) anchorF |signedDistance| rtol
        0 lowOffset highOffset = .error .binarySearchFailed) := by
  have hpos : (0:ℚ) < |signedDistance| := abs_pos.mpr hd
  refine ⟨fun f1 x1 h => ?_, fun _ _ => rfl⟩
  obtain ⟨hx, hlo, hhi⟩ :=
    expandLoop_ok curve dist (curve anchorF) anchorF |signedDistance| rtol
      _ _ _ _ _ _ h
  refine ⟨hx, ?_⟩
  have h1 : -rtol * |signedDistance| <
      dist (vsub (curve anchorF) x1) - |signedDistance| := (lt_div_iff₀ hpos).mp hlo
  have h2 : dist (vsub (curve anchorF) x1) - |signedDistance| <
      rtol * |signedDistance| := (div_lt_iff₀ hpos).mp hhi
  rw [abs_le]
  constructor <;> linarith

/-- Position returned by holeIndexOf for a present element is in range. -/
theorem holeIndexOf_lt_length (c : HoleElt) :
    ∀ l : List HoleElt, c ∈ l → holeIndexOf c l < l.length := by
  intro l
  induction l with
  | nil => intro h; cases h
  | cons x xs ih =>
    intro h
    rw [holeIndexOf]
    split
    · simp
    · rename_i hne
      have hm : c ∈ xs := by
        cases List.mem_cons.mp h with
        | inl h' => exact absurd h'.symm hne
        | inr h' => exact h'
      have := ih hm
      simp only [List.length_cons]
      omega

/-- The element at the position returned by holeIndexOf is the one sought. -/
theorem holeIndexOf_getElem (c : HoleElt) :
    ∀ l : List HoleElt, c ∈ l → l[holeIndexOf c l]? = some c := by
  intro l
  induction l with
  | nil => intro h; cases h
  | cons x xs ih =>
    intro h
    rw [holeIndexOf]
    split
    · rename_i he; simp [he]
    · rename_i hne
      have hm : c ∈ xs := by
        cases List.mem_cons.mp h with
        | inl h' => exact absurd h'.symm hne
        | inr h' => exact h'
      simpa using ih hm

/-- Every candidate selected by the fill_hole elimination loop is one of the
candidates it started from. -/
theorem selectCandidate_mem {α : Type} [LinearOrderedCommRing α]
    (xs : Nat → α × α) (a b : Nat) :
    ∀ l c, selectCandidate xs a b l = some c → c ∈ l := by
  intro l
  induction l with
  | nil => intro c h; exact absurd h (by simp [selectCandidate])
  | cons x t ih =>
    intro c h
    cases t with
    | nil =>
      rw [selectCandidate] at h
      exact (Option.some.inj h) ▸ List.mem_singleton_self x
    | cons y u =>
      rw [selectCandidate] at h
      split at h
      · exact List.mem_cons_of_mem x (ih c h)
      · exact (Option.some.inj h) ▸ List.mem_cons_self x (y :: u)

/-- Measure bookkeeping of one fill_hole iteration: whatever vertex c of the
hole boundary is chosen, the holes pushed back have total measure exactly one
less than the processed hole.  The hypotheses say c is drawn from the
candidate part of the boundary and the two leading nodes do not reappear
there (they are distinct boundary vertices in a simple hole). -/
theorem holeUpdate_measure (a b : Nat) (rest : List HoleElt) (c : HoleElt)
    (hc : c ∈ rest) (ha : (some a : HoleElt) ∉ rest) (hb : (some b : HoleElt) ∉ rest) :
    stackMeasure (holeUpdate (some a :: some b :: rest) c) + 1
      = holeMeasure (some a :: some b :: rest) := by
  have hca : (some a : HoleElt) ≠ c := fun h => ha (h ▸ hc)
  have hcb : (some b : HoleElt) ≠ c := fun h => hb (h ▸ hc)
  have hlen : 0 < rest.length := List.length_pos.mpr (List.ne_nil_of_mem hc)
  rw [holeUpdate]
  split
  · -- hole has exactly 3 elements: the hole is finished
    rename_i h3
    simp only [List.length_cons] at h3
    simp only [stackMeasure, holeMeasure, List.map_nil, List.sum_nil, List.length_cons]
    omega
  · split
    · -- c is the third element: trimmed from the front
      rename_i h3 _
      simp only [List.length_cons] at h3
      simp only [stackMeasure, holeMeasure, List.map_cons, List.map_nil, List.sum_cons,
        List.sum_nil, List.length_append, List.length_take, List.length_drop,
        List.length_cons, List.length_singleton, List.length_nil]
      omega
    · split
      · -- c is the last element: trimmed from the back
        rename_i h3 _ _
        simp only [List.length_cons] at h3
        simp only [stackMeasure, holeMeasure, List.map_cons, List.map_nil, List.sum_cons,
          List.sum_nil, List.length_drop, List.length_cons]
        omega
      · -- c is interior: the hole splits in two at c
        rename_i h3 hfront hback
        simp only [List.length_cons] at h3
        have hidx : holeIndexOf c (some a :: some b :: rest)
            = holeIndexOf c rest + 1 + 1 := by
          rw [holeIndexOf, if_neg hca, holeIndexOf, if_neg hcb]
        have hk : holeIndexOf c rest < rest.length := holeIndexOf_lt_length c rest hc
        have hkval : rest[holeIndexOf c rest]? = some c := holeIndexOf_getElem c rest hc
        have hk1 : holeIndexOf c rest ≠ 0 := by
          intro h0
          apply hfront
          have hr : (some a :: some b :: rest)[2]? = rest[0]? := by simp
          rw [hr, ← h0]
          exact hkval
        have hk2 : holeIndexOf c rest ≠ rest.length - 1 := by
          intro hlast
          apply hback
          obtain ⟨j, hj⟩ : ∃ j, rest.length = j + 1 := ⟨rest.length - 1, by omega⟩
          have hkj : holeIndexOf c rest = j := by omega
          rw [List.getLast?_eq_getElem?]
          have hL : (some a :: some b :: rest).length - 1 = j + 2 := by
            simp [hj]
          rw [hL]
          have hr : (some a :: some b :: rest)[j + 2]? = rest[j]? := by
            simp [List.getElem?_cons_succ]
          rw [hr, ← hkj]
          exact hkval
        simp only [stackMeasure, holeMeasure, List.map_cons, List.map_nil,
          List.sum_cons, List.sum_nil, List.length_append, List.length_take,
          List.length_drop, List.length_cons, hidx]
        omega

/-- C9 as amended: every iteration of the fill_hole loop (on a hole whose
two leading elements are finite nodes, as the in-loop rotation guarantees,
and whose leading nodes do not recur in the remaining boundary) decreases
the total measure sum over pending holes of (boundary size − 2) — the number
of triangles still owed — by exactly one; fill_hole therefore terminates. -/
theorem fill_hole_step_measure {α : Type} [LinearOrderedCommRing α]
    (xs : Nat → α × α) (a b : Nat) (rest : List HoleElt)
    (cellOpt : Option (Nat × Nat × Nat)) (newHoles : List (List HoleElt))
    (ha : (some a : HoleElt) ∉ rest) (hb : (some b : HoleElt) ∉ rest)
    (hstep : fillHoleStep xs (some a :: some b :: rest) = some (cellOpt, newHoles)) :
    stackMeasure newHoles + 1 = holeMeasure (some a :: some b :: rest) := by
  rw [fillHoleStep] at hstep
  cases hsel : selectCandidate xs a b
      ((rest.filterMap id).filter fun c =>
        decide (0 < orientation (xs a) (xs b) (xs c))) with
  | some c =>
    rw [hsel] at hstep
    have hmem : (some c : HoleElt) ∈ rest := by
      have h1 := selectCandidate_mem xs a b _ c hsel
      have h2 := List.mem_of_mem_filter h1
      obtain ⟨x, hx, hxc⟩ := List.mem_filterMap.mp h2
      exact hxc ▸ hx
    injection hstep with hp
    injection hp with hp1 hp2
    rw [← hp2]
    exact holeUpdate_measure a b rest (some c) hmem ha hb
  | none =>
    rw [hsel] at hstep
    by_cases hinf : (none : HoleElt) ∈ rest
    · rw [if_pos hinf] at hstep
      injection hstep with hp
      injection hp with hp1 hp2
      rw [← hp2]
      exact holeUpdate_measure a b rest none hinf ha hb
    · rw [if_neg hinf] at hstep
      exact absurd hstep (by simp)

/-- Witness for fill_hole_step_measure at the pentagonal hole: the split
produces two 3-element holes and the measure drops from 3 to 2. -/
theorem fill_hole_step_measure_witness :
    stackMeasure [[some 1, some 2, some 3], [some 3, some 4, some 0]] + 1
      = holeMeasure (some 0 :: some 1 :: [some 2, some 3, some 4]) :=
  fill_hole_step_measure holeCexX 0 1 [some 2, some 3, some 4]
    (some (0, 1, 3)) [[some 1, some 2, some 3], [some 3, some 4, some 0]]
    (by decide) (by decide) (by decide)

/-- C9 counterexample: the claim that each fill_hole iteration strictly
reduces the total boundary length of the pending holes fails when the hole
splits.  On the pentagonal hole 0..4 the Delaunay-optimal vertex for edge
(0,1) is node 3, the hole splits in two, and the total boundary length
(boundary-edge count) grows from 5 to 6.  (The geometric perimeter grows as
well: the split replaces edge a-b with the two chords b-c and c-a of the
emitted triangle.) -/
theorem fill_hole_boundary_length_cex :
    fillHoleStep holeCexX holeCex =
      some (some (0, 1, 3), [[some 1, some 2, some 3], [some 3, some 4, some 0]]) ∧
    stackBoundaryLength [holeCex] = 5 ∧
    stackBoundaryLength [[some 1, some 2, some 3], [some 3, some 4, some 0]] = 6 := by
  refine ⟨by decide, by decide, by decide⟩

/-- Updating a list entry with a change a projection cannot see leaves the
projected list unchanged. -/
theorem listModify_map {β γ : Type} (g : β → γ) (f : β → β)
    (hg : ∀ x, g (f x) = g x) :
    ∀ (l : List β) (j : Nat), (listModify f l j).map g = l.map g := by
  intro l
  induction l with
  | nil => intro j; rfl
  | cons x xs ih =>
    intro j
    cases j with
    | zero => simp [listModify, hg]
    | succ j => simp [listModify, ih]

/-- Behaviour of the add_constraint scanning loop, characterised by the
first offending intermediate element: a leading offending node yields
ConstraintCollinearNode, a leading offending (constrained) edge yields
IntersectingConstraints, and with no offending element the scan succeeds. -/
theorem constraintScan_spec {α : Type} (m : Mesh α) :
    ∀ (mid : List IntElt) (l r dc de : List Nat),
      (∀ n, mid.find? (offending m) = some (.node n) →
        constraintScan m mid l r dc de = .error .constraintCollinearNode) ∧
      (∀ j nf nr, mid.find? (offending m) = some (.edge j nf nr) →
        constraintScan m mid l r dc de = .error .intersectingConstraints) ∧
      (mid.find? (offending m) = none →
        ∃ out, constraintScan m mid l r dc de = .ok out) := by
  intro mid
  induction mid with
  | nil =>
    intro l r dc de
    exact ⟨fun n h => by simp at h, fun j nf nr h => by simp at h,
      fun _ => ⟨(l, r, dc, de), rfl⟩⟩
  | cons elt rest ih =>
    intro l r dc de
    cases elt with
    | node n0 =>
      have hfind : (IntElt.node n0 :: rest).find? (offending m)
          = some (.node n0) := List.find?_cons_of_pos _ rfl
      refine ⟨fun n _ => rfl, fun j nf nr h => ?_, fun h => ?_⟩
      · rw [hfind] at h; simp at h
      · rw [hfind] at h; simp at h
    | cell c0 =>
      have hfind : (IntElt.cell c0 :: rest).find? (offending m)
          = rest.find? (offending m) :=
        List.find?_cons_of_neg _ (by simp [offending])
      have hscan : constraintScan m (.cell c0 :: rest) l r dc de
          = constraintScan m rest l r (dc ++ [c0]) de := rfl
      obtain ⟨ih1, ih2, ih3⟩ := ih l r (dc ++ [c0]) de
      refine ⟨fun n h => ?_, fun j nf nr h => ?_, fun h => ?_⟩
      · rw [hfind] at h; rw [hscan]; exact ih1 n h
      · rw [hfind] at h; rw [hscan]; exact ih2 j nf nr h
      · rw [hfind] at h; rw [hscan]; exact ih3 h
    | edge j0 nf0 nr0 =>
      by_cases hc : (m.edgeRec j0).constrained
      · have hfind : (IntElt.edge j0 nf0 nr0 :: rest).find? (offending m)
            = some (.edge j0 nf0 nr0) :=
          List.find?_cons_of_pos _ (by simp [offending, hc])
        have hscan : constraintScan m (.edge j0 nf0 nr0 :: rest) l r dc de
            = .error .intersectingConstraints := by
          rw [constraintScan]
          simp [hc]
        refine ⟨fun n h => ?_, fun j nf nr _ => hscan, fun h => ?_⟩
        · rw [hfind] at h; simp at h
        · rw [hfind] at h; simp at h
      · have hfind : (IntElt.edge j0 nf0 nr0 :: rest).find? (offending m)
            = rest.find? (offending m) :=
          List.find?_cons_of_neg _ (by simp [offending, hc])
        have hscan : constraintScan m (.edge j0 nf0 nr0 :: rest) l r dc de
            = constraintScan m rest
                (if l.getLast? = some nf0 then l else l ++ [nf0])
                (if r.getLast? = some nr0 then r else r ++ [nr0])
                dc (de ++ [j0]) := by
          rw [constraintScan]
          simp [hc]
        obtain ⟨ih1, ih2, ih3⟩ := ih
          (if l.getLast? = some nf0 then l else l ++ [nf0])
          (if r.getLast? = some nr0 then r else r ++ [nr0])
          dc (de ++ [j0])
        refine ⟨fun n h => ?_, fun j nf nr h => ?_, fun h => ?_⟩
        · rw [hfind] at h; rw [hscan]; exact ih1 n h
        · rw [hfind] at h; rw [hscan]; exact ih2 j nf nr h
        · rw [hfind] at h; rw [hscan]; exact ih3 h

/-- The commit phase of add_constraint never raises a BadConstraint: its
only failure mode models downstream crashes of the hole filling. -/
theorem constraintCommit_err {α : Type} [LinearOrderedCommRing α] (m : Mesh α)
    (nA nB : Nat) (out : List Nat × List Nat × List Nat × List Nat) :
    (constraintCommit m nA nB out).2 = none ∨
    (constraintCommit m nA nB out).2 = some .runtimeError := by
  rw [constraintCommit]
  split
  · right; rfl
  · split
    · right; rfl
    · left; rfl

/-- C4 counterexample: on a mesh whose nodes 0 and 1 are already joined by a
constrained edge, add_constraint(0,1) does not mark-and-return as the claim
states for "whatever its current constrained flag": the branch asserts the
edge is not yet constrained, so the call fails the assert (AssertionError)
and marks nothing. -/
theorem add_constraint_existing_constrained_cex :
    consCexMesh.nodesToEdge 0 1 = some 0 ∧
    (consCexMesh.edgeRec 0).constrained = true ∧
    add_constraint consCexMesh 0 1 [] = (consCexMesh, some .assertionFailed) := by
  refine ⟨by decide, by decide, by decide⟩

/-- C4 as amended: when the existing edge joining nA and nB is not yet
constrained, add_constraint marks it constrained and returns, changing
nothing else: node storage, cells, and every edge's nodes, cell links and
deletion flag are untouched.  (If the existing edge is already constrained
the call fails an assert instead.) -/
theorem add_constraint_existing_marks {α : Type} [LinearOrderedCommRing α]
    (m : Mesh α) (nA nB j : Nat) (elts : List IntElt)
    (hj : m.nodesToEdge nA nB = some j)
    (hcons : (m.edgeRec j).constrained = false) :
    add_constraint m nA nB elts = (m.setConstrained j true, none) ∧
    (m.setConstrained j true).nodeX = m.nodeX ∧
    (m.setConstrained j true).cells = m.cells ∧
    ((m.setConstrained j true).edges.map fun e =>
        (e.n0, e.n1, e.cLeft, e.cRight, e.deleted))
      = m.edges.map fun e => (e.n0, e.n1, e.cLeft, e.cRight, e.deleted) := by
  refine ⟨?_, rfl, rfl, ?_⟩
  · simp only [add_constraint, hj, hcons, Bool.false_eq_true, if_false]
  · show (listModify (fun e => { e with constrained := true }) m.edges j).map
        (fun e => (e.n0, e.n1, e.cLeft, e.cRight, e.deleted))
      = m.edges.map fun e => (e.n0, e.n1, e.cLeft, e.cRight, e.deleted)
    exact listModify_map (fun e => (e.n0, e.n1, e.cLeft, e.cRight, e.deleted))
      (fun e => { e with constrained := true }) (fun x => rfl) m.edges j

/-- Witness for add_constraint_existing_marks on the two-node mesh with an
unconstrained edge. -/
theorem add_constraint_existing_marks_witness :
    add_constraint consOkMesh 0 1 [] = (consOkMesh.setConstrained 0 true, none) ∧
    (consOkMesh.setConstrained 0 true).nodeX = consOkMesh.nodeX ∧
    (consOkMesh.setConstrained 0 true).cells = consOkMesh.cells ∧
    ((consOkMesh.setConstrained 0 true).edges.map fun e =>
        (e.n0, e.n1, e.cLeft, e.cRight, e.deleted))
      = consOkMesh.edges.map fun e => (e.n0, e.n1, e.cLeft, e.cRight, e.deleted) :=
  add_constraint_existing_marks consOkMesh 0 1 0 [] (by decide) (by decide)

/-- C3: for nodes not already joined by an edge, add_constraint walking the
intersection history raises ConstraintCollinearNode when the first offending
intermediate element is a node, raises IntersectingConstraints when it is an
already-constrained edge, leaves the mesh exactly in its pre-call state in
either failure case (deletions happen only after the full walk succeeds),
and raises neither exception when no intermediate element offends. -/
theorem add_constraint_walk_failure {α : Type} [LinearOrderedCommRing α]
    (m : Mesh α) (nA nB : Nat) (elts : List IntElt)
    (hnoedge : m.nodesToEdge nA nB = none) :
    (∀ n, ((elts.drop 1).dropLast).find? (offending m) = some (.node n) →
      add_constraint m nA nB elts = (m, some .constraintCollinearNode)) ∧
    (∀ j nf nr, ((elts.drop 1).dropLast).find? (offending m) = some (.edge j nf nr) →
      (m.edgeRec j).constrained = true ∧
      add_constraint m nA nB elts = (m, some .intersectingConstraints)) ∧
    (∀ e, (add_constraint m nA nB elts).2 = some e →
      e = .constraintCollinearNode ∨ e = .intersectingConstraints →
      (add_constraint m nA nB elts).1 = m) ∧
    (((elts.drop 1).dropLast).find? (offending m) = none →
      (add_constraint m nA nB elts).2 ≠ some .constraintCollinearNode ∧
      (add_constraint m nA nB elts).2 ≠ some .intersectingConstraints) := by
  obtain ⟨s1, s2, s3⟩ := constraintScan_spec m ((elts.drop 1).dropLast) [nA] [nA] [] []
  refine ⟨?_, ?_, ?_, ?_⟩
  · intro n h
    simp only [add_constraint, hnoedge, s1 n h]
  · intro j nf nr h
    have hoff := List.find?_some h
    refine ⟨by simpa [offending] using hoff, ?_⟩
    simp only [add_constraint, hnoedge, s2 j nf nr h]
  · intro e he hor
    rcases hscan : constraintScan m ((elts.drop 1).dropLast) [nA] [nA] [] [] with e' | out
    · simp only [add_constraint, hnoedge, hscan]
    · exfalso
      have hres : add_constraint m nA nB elts = constraintCommit m nA nB out := by
        simp only [add_constraint, hnoedge, hscan]
      rw [hres] at he
      rcases constraintCommit_err m nA nB out with hc | hc <;> rw [hc] at he
      · cases he
      · cases hor <;> simp_all
  · intro h
    obtain ⟨out, hok⟩ := s3 h
    have hres : add_constraint m nA nB elts = constraintCommit m nA nB out := by
      simp only [add_constraint, hnoedge, hok]
    rcases constraintCommit_err m nA nB out with hc | hc <;>
      rw [hres, hc] <;> exact ⟨by simp, by simp⟩

/-- Witness for add_constraint_walk_failure: the constraint 0–1 crosses the
constrained edge 2–3 of walkCexMesh; the call raises IntersectingConstraints
and returns the mesh unchanged. -/
theorem add_constraint_walk_failure_witness :
    (walkCexMesh.edgeRec 0).constrained = true ∧
    add_constraint walkCexMesh 0 1 walkCexElts
      = (walkCexMesh, some .intersectingConstraints) :=
  (add_constraint_walk_failure walkCexMesh 0 1 walkCexElts (by decide)).2.1 0 2 3
    (by decide)

/-- C5: on the canonical flippable configuration — edge 0 = (a,c) with left
cell (a,c,d) and right cell (c,a,b) at arbitrary positions for which the two
replacement triangles are CCW — b is the apex of the right cell, d the apex
of the left cell, and flip_edge retargets edge 0 to (b,d), tombstones both
old cells, and adds cells (a,b,d) and (c,d,b) whose creation re-links the
edge-to-cell pointers of all five edges. -/
theorem flip_edge_spec {α : Type} [LinearOrderedCommRing α] (pa pb pc pd : α × α)
    (h1 : orientation pa pb pd = 1) (h2 : orientation pc pd pb = 1) :
    (quadMesh pa pb pc pd).apexOf 1 0 = some 1 ∧
    (quadMesh pa pb pc pd).apexOf 0 0 = some 3 ∧
    flip_edge (quadMesh pa pb pc pd) 0 =
      some ({ nodeX := [pa, pb, pc, pd],
              edges := [⟨1, 3, 2, 3, false, false⟩,
                        ⟨2, 3, 3, INF_CELL, false, false⟩,
                        ⟨3, 0, 2, INF_CELL, false, false⟩,
                        ⟨0, 1, 2, INF_CELL, false, false⟩,
                        ⟨1, 2, 3, INF_CELL, false, false⟩],
              cells := [⟨0, 2, 3, 0, 1, 2, true⟩,
                        ⟨2, 0, 1, 0, 3, 4, true⟩,
                        ⟨0, 1, 3, 3, 0, 2, false⟩,
                        ⟨2, 3, 1, 1, 0, 4, false⟩] }, 2, 3) := by
  refine ⟨rfl, rfl, ?_⟩
  simp [flip_edge, quadMesh, Mesh.edgeRec, Mesh.cellRec, Mesh.heFwd, Mesh.heCell,
    Mesh.heNodeFwd, Mesh.cellHalfEdge, Mesh.deleteCell, Mesh.modifyEdgeNodes,
    Mesh.addCell, Mesh.nodesToEdge, Mesh.x, listModify, INF_CELL, List.getD,
    h1, h2]

/-- Witness for flip_edge_spec at the unit square a=(0,0), b=(1,0), c=(1,1),
d=(0,1), whose two replacement triangles are CCW. -/
theorem flip_edge_spec_witness :
    (quadMesh ((0:ℤ), 0) (1, 0) (1, 1) (0, 1)).apexOf 1 0 = some 1 ∧
    (quadMesh ((0:ℤ), 0) (1, 0) (1, 1) (0, 1)).apexOf 0 0 = some 3 ∧
    flip_edge (quadMesh ((0:ℤ), 0) (1, 0) (1, 1) (0, 1)) 0 =
      some ({ nodeX := [((0:ℤ), 0), (1, 0), (1, 1), (0, 1)],
              edges := [⟨1, 3, 2, 3, false, false⟩,
                        ⟨2, 3, 3, INF_CELL, false, false⟩,
                        ⟨3, 0, 2, INF_CELL, false, false⟩,
                        ⟨0, 1, 2, INF_CELL, false, false⟩,
                        ⟨1, 2, 3, INF_CELL, false, false⟩],
              cells := [⟨0, 2, 3, 0, 1, 2, true⟩,
                        ⟨2, 0, 1, 0, 3, 4, true⟩,
                        ⟨0, 1, 3, 3, 0, 2, false⟩,
                        ⟨2, 3, 1, 1, 0, 4, false⟩] }, 2, 3) :=
  flip_edge_spec ((0:ℤ), 0) (1, 0) (1, 1) (0, 1) (by decide) (by decide)

/-- C10: when locate classifies the requested coordinates as IN_VERTEX (the
point coincides with an existing node), add_node appends the new node record
to node storage first and only then raises DuplicateNode, and the record is
not removed: the post-call storage is the pre-call storage plus one live
(undeleted) node at the duplicate position, so add_node is not atomic on
this error. -/
theorem add_node_duplicate_not_atomic {α : Type}
    (locate : List (NodeRec α) → α × α → LocKind)
    (nodes : List (NodeRec α)) (x : α × α) (m : Nat)
    (hloc : locate nodes x = .inVertex m) :
    add_node locate nodes x = (nodes ++ [⟨x, false⟩], .error .duplicateNode) := by
  simp [add_node, hloc]

/-- Witness for add_node_duplicate_not_atomic: inserting (1,2) into a mesh
whose single live node already sits at (1,2) leaves two live nodes at (1,2)
and raises DuplicateNode. -/
theorem add_node_duplicate_not_atomic_witness :
    add_node locateDupCex [⟨(1, 2), false⟩] (1, 2)
      = ([⟨(1, 2), false⟩, ⟨(1, 2), false⟩], .error .duplicateNode) :=
  add_node_duplicate_not_atomic locateDupCex [⟨(1, 2), false⟩] (1, 2) 0 (by decide)

/-- The constraint-replay loop, when it completes without exception, has
added every pair in the list, preserved every previously-held constraint,
and moved no node. -/
theorem addAllCons_ok {S P : Type} (ops : GridOps S P)
    (hOk : ∀ s p s', ops.addCons s p = .ok s' →
      ops.isCons s' p = true ∧ ∀ q, ops.isCons s q = true → ops.isCons s' q = true)
    (hPos : ∀ s p s', ops.addCons s p = .ok s' → ∀ k, ops.pos s' k = ops.pos s k) :
    ∀ (ps : List (Nat × Nat)) (s s' : S), addAllCons ops s ps = (s', none) →
      (∀ q, ops.isCons s q = true → ops.isCons s' q = true) ∧
      (∀ p ∈ ps, ops.isCons s' p = true) ∧
      (∀ k, ops.pos s' k = ops.pos s k) := by
  intro ps
  induction ps with
  | nil =>
    intro s s' h
    injection h with h1 h2
    subst h1
    exact ⟨fun q hq => hq, fun p hp => absurd hp (List.not_mem_nil p), fun k => rfl⟩
  | cons p ps ih =>
    intro s s' h
    rw [addAllCons] at h
    cases hC : ops.addCons s p with
    | ok s1 =>
      rw [hC] at h
      obtain ⟨mono, hall, hposs⟩ := ih s1 s' h
      obtain ⟨hcp, hmono1⟩ := hOk s p s1 hC
      refine ⟨fun q hq => mono q (hmono1 q hq), ?_,
        fun k => (hposs k).trans (hPos s p s1 hC k)⟩
      intro p' hp'
      rcases List.mem_cons.mp hp' with h' | h'
      · subst h'; exact mono p' hcp
      · exact hall p' h'
    | error e =>
      rw [hC] at h
      injection h with h1 h2
      cases h2

/-- C2: the modify_node protocol.  Under the contracts of the container and
CDT primitives (a successful add_constraint establishes its pair, preserves
existing constraints, and moves no node; add_node with _index=i reports id i
and places the node at the requested position):
on normal return every node pair that was a constrained edge at n before the
call is again constrained and n keeps its id; and when re-adding a
constraint raises IntersectingConstraints while the rollback replay
succeeds (the source's "This should not fail"), modify_node returns the
rolled-back state — node n restored at its original position, all original
constrained edges restored — and re-raises IntersectingConstraints. -/
theorem modify_node_protocol {S P : Type} (ops : GridOps S P)
    (hOk : ∀ s p s', ops.addCons s p = .ok s' →
      ops.isCons s' p = true ∧ ∀ q, ops.isCons s q = true → ops.isCons s' q = true)
    (hPos : ∀ s p s', ops.addCons s p = .ok s' → ∀ k, ops.pos s' k = ops.pos s k)
    (hAddPos : ∀ s i x, ops.pos (ops.addNodeAt s i x).1 i = x)
    (hAddIdx : ∀ s i x, (ops.addNodeAt s i x).2 = i)
    (s : S) (n : Nat) (newx : P) :
    (∀ s3, addAllCons ops ((ops.addNodeAt (ops.delNode s n) n newx).1) (ops.consAt s n)
        = (s3, none) →
      modify_node ops s n newx = (s3, none) ∧
      (∀ p ∈ ops.consAt s n, ops.isCons s3 p = true) ∧
      (ops.addNodeAt (ops.delNode s n) n newx).2 = n) ∧
    (∀ s3 s6,
      addAllCons ops ((ops.addNodeAt (ops.delNode s n) n newx).1) (ops.consAt s n)
        = (s3, some .intersecting) →
      addAllCons ops ((ops.addNodeAt (ops.delNode s3 n) n (ops.pos s n)).1)
          (ops.consAt s n)
        = (s6, none) →
      modify_node ops s n newx = (s6, some .intersecting) ∧
      ops.pos s6 n = ops.pos s n ∧
      (∀ p ∈ ops.consAt s n, ops.isCons s6 p = true)) := by
  constructor
  · intro s3 h
    refine ⟨?_, (addAllCons_ok ops hOk hPos _ _ _ h).2.1, hAddIdx _ _ _⟩
    simp only [modify_node, h]
  · intro s3 s6 h1 h2
    refine ⟨?_, ?_, (addAllCons_ok ops hOk hPos _ _ _ h2).2.1⟩
    · simp only [modify_node, h1, h2]
    · have hp := (addAllCons_ok ops hOk hPos _ _ _ h2).2.2 n
      rw [hp]
      exact hAddPos _ _ _

/-- A successful toy add_constraint establishes its pair and preserves
existing constraints. -/
theorem toyOps_addCons_ok : ∀ (s : ToyS) (p : Nat × Nat) (s' : ToyS),
    toyOps.addCons s p = .ok s' →
    toyOps.isCons s' p = true ∧
    ∀ q, toyOps.isCons s q = true → toyOps.isCons s' q = true := by
  intro s p s' h
  simp only [toyOps] at h ⊢
  split at h
  · cases h
  · injection h with h'
    subst h'
    refine ⟨by simp, fun q hq => ?_⟩
    simp only [List.contains_cons, hq, Bool.or_true]

/-- A successful toy add_constraint moves no node. -/
theorem toyOps_addCons_pos : ∀ (s : ToyS) (p : Nat × Nat) (s' : ToyS),
    toyOps.addCons s p = .ok s' → ∀ k, toyOps.pos s' k = toyOps.pos s k := by
  intro s p s' h k
  simp only [toyOps] at h ⊢
  split at h
  · cases h
  · injection h with h'
    subst h'
    rfl

/-- Toy add_node places the node at the requested position. -/
theorem toyOps_addNode_pos : ∀ (s : ToyS) (i : Nat) (x : ℤ × ℤ),
    toyOps.pos (toyOps.addNodeAt s i x).1 i = x := by
  intro s i x
  simp [toyOps, toyPos]

/-- Witness for modify_node_protocol: node 0 holds constraints (0,1) and
(0,2) at position (0,0); moving it to the conflicting position (1,1) makes
the first add_constraint replay raise IntersectingConstraints, the rollback
replay succeeds, and the call returns the exception with node 0 back at
(0,0) and both constraints restored. -/
theorem modify_node_protocol_witness :
    modify_node toyOps ([(0, 1), (0, 2)], [(0, ((0:ℤ), 0))]) 0 (1, 1)
      = (([(0, 2), (0, 1)], [(0, ((0:ℤ), 0)), (0, (1, 1)), (0, ((0:ℤ), 0))]),
         some .intersecting) ∧
    toyOps.pos ([(0, 2), (0, 1)], [(0, ((0:ℤ), 0)), (0, (1, 1)), (0, ((0:ℤ), 0))]) 0
      = toyOps.pos ([(0, 1), (0, 2)], [(0, ((0:ℤ), 0))]) 0 ∧
    (∀ p ∈ toyOps.consAt ([(0, 1), (0, 2)], [(0, ((0:ℤ), 0))]) 0,
      toyOps.isCons
        ([(0, 2), (0, 1)], [(0, ((0:ℤ), 0)), (0, (1, 1)), (0, ((0:ℤ), 0))]) p
        = true) :=
  (modify_node_protocol toyOps toyOps_addCons_ok toyOps_addCons_pos
      toyOps_addNode_pos (fun _ _ _ => rfl)
      ([(0, 1), (0, 2)], [(0, ((0:ℤ), 0))]) 0 (1, 1)).2
    ([], [(0, (1, 1)), (0, ((0:ℤ), 0))])
    ([(0, 2), (0, 1)], [(0, ((0:ℤ), 0)), (0, (1, 1)), (0, ((0:ℤ), 0))])
    (by decide) (by decide)

/-- Witness for distance_away_spec: on the horizontal line curve f = (f, 0)
with taxicab length, anchored at 0 with requested distance 1, the very first
expansion probe lands exactly at relative error 0 and distance_away returns
(1, (1,0)). -/
theorem distance_away_spec_witness :
    (∀ f1 x1,
      distance_away (fun f => (f, 0)) (fun v => |v.1| + |v.2|) 0 1 (1/20) = .ok (f1, x1) →
      x1 = (f1, (0:ℚ)) ∧
      abs ((|((0:ℚ) - x1.1)| + |(0:ℚ) - x1.2|) - |(1:ℚ)|) ≤ 1/20 * |(1:ℚ)|) ∧
    (∀ lowOffset highOffset,
      bisectLoop (fun f => (f, 0)) (fun v => |v.1| + |v.2|) ((0:ℚ), (0:ℚ)) 0 |(1:ℚ)| (1/20)
        0 lowOffset highOffset = .error .binarySearchFailed) := by
  have h := distance_away_spec (fun f => (f, 0)) (fun v => |v.1| + |v.2|) 0 1 (1/20)
    (by norm_num)
  exact ⟨fun f1 x1 hok => h.1 f1 x1 hok, h.2⟩

end Stompy
